import Mathlib

/-
Verification development for the symptomnerd-backend live call queue
(src/server.js).  The Firestore collection `pharmacist_call_requests` is
modelled as a `List CallRecord` kept in insertion (creation) order.
Server timestamps are integer milliseconds; document ids are naturals.
All definitions below are shallow embeddings of the corresponding
functions and route handlers in src/server.js.
-/

namespace SymptomNerd

/-- The `handoff` payload stored on a call request (server.js start-call
handler): bounded free text plus an optional opaque range marker. -/
structure Handoff where
  userMessage : String
  summarizedLogs : String
  attachedRange : Option String
  deriving Repr, DecidableEq

/-- A document of the `pharmacist_call_requests` collection.
`queuePosition` is `none` when the stored field is null or absent;
`createdAt` is the millisecond value `callCreatedAtMillis` reads. -/
structure CallRecord where
  id : Nat
  userId : Nat
  status : String
  queuePosition : Option Nat
  createdAt : Nat
  startedAt : Option Nat
  endedAt : Option Nat
  updatedAt : Nat
  handoff : Handoff
  deriving Repr, DecidableEq

/-- server.js line 265: `ACTIVE_CALL_STATUSES`. -/
def ACTIVE_CALL_STATUSES : List String :=
  ["requested", "queued", "ringing", "in_progress"]

/-- server.js line 266: `TERMINAL_CALL_STATUSES`. -/
def TERMINAL_CALL_STATUSES : List String :=
  ["completed", "failed", "cancelled", "missed"]

/-- server.js line 267: `USER_UPDATABLE_CALL_STATUSES`. -/
def USER_UPDATABLE_CALL_STATUSES : List String :=
  ["ringing", "in_progress", "completed", "failed", "cancelled", "missed"]

def isActiveCallStatus (st : String) : Bool := ACTIVE_CALL_STATUSES.contains st

def isTerminalCallStatus (st : String) : Bool := TERMINAL_CALL_STATUSES.contains st

/-- One step of the stable ascending sort by `createdAt` used by
`listActiveCalls` (server.js line 329: `snapshot.docs.sort(left - right)`,
a stable sort).  The inserted record comes from earlier in the original
list than everything already sorted, so on equal keys it goes first. -/
def insertByCreatedAt (r : CallRecord) : List CallRecord → List CallRecord
  | [] => [r]
  | x :: xs =>
    if x.createdAt < r.createdAt then x :: insertByCreatedAt r xs
    else r :: x :: xs

/-- Stable insertion sort by `createdAt` ascending; extensionally equal to
the stable JavaScript `Array.prototype.sort` with the millis comparator. -/
def sortByCreatedAt : List CallRecord → List CallRecord
  | [] => []
  | x :: xs => insertByCreatedAt x (sortByCreatedAt xs)

/-- server.js lines 324-330, `listActiveCalls`: query the records whose
status is in `ACTIVE_CALL_STATUSES` and sort them by `createdAt` ascending
(stable, so ties keep insertion order). -/
def listActiveCalls (s : List CallRecord) : List CallRecord :=
  sortByCreatedAt (s.filter fun r => isActiveCallStatus r.status)

/-- One entry of the batched write `rebalanceCallQueue` commits for a doc:
the new `queuePosition` when it changed, and whether the head is promoted
`queued -> requested` (server.js lines 339-357). -/
structure RebalanceWrite where
  id : Nat
  newQueuePosition : Option Nat
  promoteToRequested : Bool
  deriving Repr, DecidableEq

/-- The update object `rebalanceCallQueue` builds for the doc at (1-based)
rank `pos`, or `none` when the update object stays empty (lines 339-357). -/
def rebalanceWriteFor (pos : Nat) (r : CallRecord) : Option RebalanceWrite :=
  if r.queuePosition ≠ some pos ∨ (pos = 1 ∧ r.status = "queued") then
    some { id := r.id
           newQueuePosition := if r.queuePosition ≠ some pos then some pos else none
           promoteToRequested := decide (pos = 1 ∧ r.status = "queued") }
  else none

/-- The batch of writes over the sorted active docs, starting at rank
`pos` (so the whole batch is `rebalanceWritesFrom 1 docs`). -/
def rebalanceWritesFrom : Nat → List CallRecord → List RebalanceWrite
  | _, [] => []
  | pos, r :: rs =>
    match rebalanceWriteFor pos r with
    | some w => w :: rebalanceWritesFrom (pos + 1) rs
    | none => rebalanceWritesFrom (pos + 1) rs

/-- The writes one call of `rebalanceCallQueue` commits on state `s`
(empty batch means `batch.commit()` is never called). -/
def callQueueWrites (s : List CallRecord) : List RebalanceWrite :=
  rebalanceWritesFrom 1 (listActiveCalls s)

/-- Apply one committed update to its document: set the position if it was
part of the update, promote the status if the update promoted, and stamp
`updatedAt` (the update always carries `updatedAt`, line 353). -/
def applyRebalanceWrite (now : Nat) (w : RebalanceWrite) (r : CallRecord) : CallRecord :=
  { r with
    queuePosition := match w.newQueuePosition with
      | some p => some p
      | none => r.queuePosition
    status := if w.promoteToRequested then "requested" else r.status
    updatedAt := now }

/-- Apply the batch to one stored document, keyed by document id (ids are
unique in a Firestore collection). -/
def applyWritesTo (ws : List RebalanceWrite) (now : Nat) (r : CallRecord) : CallRecord :=
  match ws.find? (fun w => w.id == r.id) with
  | some w => applyRebalanceWrite now w r
  | none => r

/-- server.js lines 332-362, `rebalanceCallQueue`: read the active docs in
`createdAt` order, build the per-rank updates, and commit them atomically. -/
def rebalanceCallQueue (s : List CallRecord) (now : Nat) : List CallRecord :=
  s.map (applyWritesTo (callQueueWrites s) now)

/-- The image of the doc at rank `pos` under its own rebalance update. -/
def rebalanceStep (now pos : Nat) (r : CallRecord) : CallRecord :=
  match rebalanceWriteFor pos r with
  | some w => applyRebalanceWrite now w r
  | none => r

/-- The sorted active docs after the batch, described rank by rank. -/
def rebalancedDocsFrom (now : Nat) : Nat → List CallRecord → List CallRecord
  | _, [] => []
  | pos, r :: rs => rebalanceStep now pos r :: rebalancedDocsFrom now (pos + 1) rs

/-- The characters JavaScript `String.prototype.trim` strips: WhiteSpace
and LineTerminator code points. -/
def jsWhitespaceChars : List Char :=
  ['\t', '\n', '\x0b', '\x0c', '\r', ' ', '\u00A0', '\u1680',
   '\u2000', '\u2001', '\u2002', '\u2003', '\u2004', '\u2005', '\u2006',
   '\u2007', '\u2008', '\u2009', '\u200A', '\u2028', '\u2029', '\u202F',
   '\u205F', '\u3000', '\uFEFF']

def isJsWhitespace (c : Char) : Bool := jsWhitespaceChars.contains c

/-- JavaScript `trim()`: drop leading and trailing whitespace. -/
def jsTrim (l : List Char) : List Char :=
  ((l.dropWhile isJsWhitespace).reverse.dropWhile isJsWhitespace).reverse

/-- A character matched by the class `[A-Za-z0-9_.-]` of the regex in
`sanitizeIdentity` (server.js line 240). -/
def isIdentityChar (c : Char) : Bool :=
  c.isAlpha || c.isDigit || c == '_' || c == '.' || c == '-'

/-- The character pipeline of `sanitizeIdentity`:
`.trim().replace(not-in-class, underscore).slice(0, 120)`. -/
def sanitizeIdentityChars (l : List Char) : List Char :=
  ((jsTrim l).map fun c => if isIdentityChar c then c else '_').take 120

/-- server.js lines 237-243, `sanitizeIdentity`: clean the identity down
to `[A-Za-z0-9_.-]`, cap it at 120 characters, and fall back when the
cleaned result is empty. -/
def sanitizeIdentity (identity : String) (fallbackIdentity : String) : String :=
  let cleaned := String.mk (sanitizeIdentityChars identity.data)
  if cleaned = "" then fallbackIdentity else cleaned

/-- The Twilio environment configuration (server.js lines 32-36).  A field
is `none` when the environment variable is unset or empty (falsy). -/
structure TwilioConfig where
  accountSid : Option String
  apiKey : Option String
  apiSecret : Option String
  twimlAppSid : Option String
  pharmacistIdentity : String
  deriving Repr, DecidableEq

/-- server.js lines 233-235, `isTwilioConfigured`. -/
def isTwilioConfigured (cfg : TwilioConfig) : Bool :=
  cfg.accountSid.isSome && cfg.apiKey.isSome && cfg.apiSecret.isSome &&
    cfg.twimlAppSid.isSome

/-- Modelled collaborator: `createTwilioVoiceToken` (server.js lines
245-255) mints a JWT through the external twilio library.  The content
the spec can observe is the identity the voice grant is scoped to. -/
structure VoiceToken where
  identity : String
  deriving Repr, DecidableEq

def createTwilioVoiceToken (identity : String) : VoiceToken :=
  { identity := identity }

/-- The verified caller identity produced by
`verifyFirebaseUserFromRequest` (server.js lines 293-314). -/
structure UserIdent where
  uid : Nat
  identity : String
  callerName : String
  firstName : String
  lastName : String
  userEmail : String
  deriving Repr, DecidableEq

/-- Outcome of a status-update route: the JSON `{ok:true}` success body or
an error status code with its message. -/
inductive EndpointResult where
  | ok
  | err (httpStatus : Nat) (message : String)
  deriving Repr, DecidableEq

/-- The JSON body the start-call route answers with (both the queued and
the live-token shapes, and the degraded direct-connect shape). -/
structure StartCallResponse where
  queued : Bool
  requestId : Option Nat
  queuePosition : Nat
  token : Option VoiceToken
  identity : Option String
  displayName : Option String
  pharmacistIdentity : Option String
  degraded : Bool
  message : Option String
  deriving Repr, DecidableEq

/-- server.js lines 219-231, `buildDirectTwilioCallPayload`: the degraded
direct-connect response that bypasses the queue. -/
def buildDirectTwilioCallPayload (cfg : TwilioConfig) (u : UserIdent)
    (message : Option String) : StartCallResponse :=
  { queued := false
    requestId := none
    queuePosition := 1
    token := some (createTwilioVoiceToken u.identity)
    identity := some u.identity
    displayName := some u.callerName
    pharmacistIdentity := some (sanitizeIdentity cfg.pharmacistIdentity ("pharmacist_console"))
    degraded := true
    message := some (message.getD ("Connected directly because queue service is temporarily unavailable.")) }

/-- The catch branch of the start-call route for a Firestore
quota-exceeded error (server.js lines 695-714): re-verify the caller and
connect directly when Twilio is configured, otherwise answer 429.
`reverified` is `none` when the second `verifyFirebaseUserFromRequest`
throws.  The handler performs no store writes. -/
def startCallQuotaFallback (cfg : TwilioConfig) (reverified : Option UserIdent) :
    Except (Nat × String) StartCallResponse :=
  match reverified with
  | some u =>
    if isTwilioConfigured cfg then
      .ok (buildDirectTwilioCallPayload cfg u
        (some ("Queue service is temporarily unavailable. We are connecting you directly.")))
    else
      .error (429, "Live call queue is unavailable because Firestore quota is exceeded. Direct Twilio connection is also unavailable.")
  | none =>
    .error (429, "Live call queue is unavailable because Firestore quota is exceeded. Direct Twilio connection is also unavailable.")

/-- JavaScript `a || b` on a possibly-null number `a`: null, undefined and
0 all fall through to `b`. -/
def jsOrNat (o : Option Nat) (alt : Nat) : Nat :=
  match o with
  | some n => if n = 0 then alt else n
  | none => alt

/-- The queued response of the start-call route (server.js lines 676-683). -/
def queuedStartCallResponse (requestId qp : Nat) : StartCallResponse :=
  { queued := true
    requestId := some requestId
    queuePosition := qp
    token := none
    identity := none
    displayName := none
    pharmacistIdentity := none
    degraded := false
    message := some ("All pharmacists are on active calls. You are #" ++ toString qp ++ " in queue.") }

/-- The live-token response of the start-call route (lines 685-694). -/
def liveStartCallResponse (cfg : TwilioConfig) (requestId : Nat) (u : UserIdent) :
    StartCallResponse :=
  { queued := false
    requestId := some requestId
    queuePosition := 1
    token := some (createTwilioVoiceToken u.identity)
    identity := some u.identity
    displayName := some u.callerName
    pharmacistIdentity := some (sanitizeIdentity cfg.pharmacistIdentity ("pharmacist_console"))
    degraded := false
    message := none }

/-- The document the start-call route creates for a first admission
(server.js lines 648-670): status `requested` when it would land at
position 1, else `queued`, with the bounded handoff payload. -/
def newCallRecord (u : UserIdent) (freshId qp0 now : Nat) (handoffBody : Handoff) :
    CallRecord :=
  { id := freshId
    userId := u.uid
    status := if qp0 ≤ 1 then "requested" else "queued"
    queuePosition := some qp0
    createdAt := now
    startedAt := none
    endedAt := none
    updatedAt := now
    handoff := { userMessage := handoffBody.userMessage.take 500
                 summarizedLogs := handoffBody.summarizedLogs.take 4000
                 attachedRange := handoffBody.attachedRange } }

/-- server.js lines 622-694, the healthy path of `POST /twilio/start-call`:
rebalance, look for an existing active record of this user, otherwise
create one and rebalance again, then answer queued or with a live token.
`freshId` is the id Firestore draws for a new document. -/
def startCall (cfg : TwilioConfig) (s : List CallRecord) (now : Nat) (u : UserIdent)
    (freshId : Nat) (handoffBody : Handoff) :
    List CallRecord × Except (Nat × String) StartCallResponse :=
  if isTwilioConfigured cfg then
    let s1 := rebalanceCallQueue s now
    let activeCalls := listActiveCalls s1
    match activeCalls.find? (fun r => r.userId == u.uid) with
    | some existingCall =>
      let qp := jsOrNat existingCall.queuePosition
        (match activeCalls.findIdx? (fun d => d.id == existingCall.id) with
         | some i => max 1 (i + 1)
         | none => max 1 0)
      if 1 < qp then (s1, .ok (queuedStartCallResponse existingCall.id qp))
      else (s1, .ok (liveStartCallResponse cfg existingCall.id u))
    | none =>
      let qp0 := activeCalls.length + 1
      let s2 := s1 ++ [newCallRecord u freshId qp0 now handoffBody]
      let s3 := rebalanceCallQueue s2 now
      let qp := match s3.find? (fun r => r.id == freshId) with
        | some refreshed => jsOrNat refreshed.queuePosition qp0
        | none => qp0
      if 1 < qp then (s3, .ok (queuedStartCallResponse freshId qp))
      else (s3, .ok (liveStartCallResponse cfg freshId u))
  else (s, .error (503, "Twilio Voice not configured."))

/-- The new record contents the user status route writes (server.js lines
740-752) applied to the stored document. -/
def userCallStatusUpdateRecord (r : CallRecord) (st : String) (now : Nat) : CallRecord :=
  let r1 := { r with status := st, updatedAt := now }
  let r2 :=
    if st = "in_progress" then
      { r1 with
        startedAt := match r.startedAt with
          | some t => some t
          | none => some now
        queuePosition := some 1 }
    else r1
  if isTerminalCallStatus st then
    { r2 with endedAt := some now, queuePosition := none }
  else r2

/-- server.js lines 720-760, `POST /twilio/calls/:id/status`: whitelist
check, existence check, ownership check, write, then rebalance. -/
def userUpdateCallStatus (s : List CallRecord) (now uid id : Nat) (st : String) :
    List CallRecord × EndpointResult :=
  if USER_UPDATABLE_CALL_STATUSES.contains st then
    match s.find? (fun r => r.id == id) with
    | none => (s, .err 404 "Call request not found.")
    | some current =>
      if current.userId == uid then
        (rebalanceCallQueue
          (s.map fun r => if r.id == id then userCallStatusUpdateRecord r st now else r) now,
         .ok)
      else (s, .err 403 "You cannot update this call request.")
  else (s, .err 400 "Invalid call status.")

/-- The new record contents the pharmacist status route writes (server.js
lines 544-556): the status is taken as given, `startedAt` is restamped on
every `in_progress`, terminal statuses stamp `endedAt` and null the
position. -/
def pharmacistCallStatusUpdateRecord (st : String) (now : Nat) (r : CallRecord) : CallRecord :=
  let r1 := { r with status := st, updatedAt := now }
  let r2 := if st = "in_progress" then { r1 with startedAt := some now } else r1
  if isTerminalCallStatus st then
    { r2 with endedAt := some now, queuePosition := none }
  else r2

/-- server.js lines 542-563, `POST /pharmacist/api/calls/:id/status`:
`req.body?.status || "in_progress"` (so an absent or empty status falls
back), no whitelist and no ownership check; a missing document makes the
Firestore update throw, answered as 500. -/
def pharmacistUpdateCallStatus (s : List CallRecord) (now id : Nat)
    (statusBody : Option String) : List CallRecord × EndpointResult :=
  let st := match statusBody with
    | some v => if v = "" then "in_progress" else v
    | none => "in_progress"
  match s.find? (fun r => r.id == id) with
  | none => (s, .err 500 "NOT_FOUND: no document to update")
  | some _ =>
    (rebalanceCallQueue
      (s.map fun r => if r.id == id then pharmacistCallStatusUpdateRecord st now r else r) now,
     .ok)

/-- The JSON body of `GET /pharmacist-presence`. -/
structure PresenceResponse where
  online : Bool
  activeCalls : Nat
  estimatedWaitMinutes : Int
  deriving Repr, DecidableEq

/-- Count of records in an active status, as the presence route queries it. -/
def countActiveCalls (s : List CallRecord) : Nat :=
  (s.filter fun r => isActiveCallStatus r.status).length

/-- server.js lines 816-835, `GET /pharmacist-presence`:
`online` iff a heartbeat exists (`updatedAtMillis > 0`) and it is younger
than 45 seconds; `estimatedWaitMinutes = max(0, (activeCalls - 1) * 6)`.
`presenceUpdatedAt` is the `updatedAt` millis of the singleton presence
doc, `none` when the doc or field is missing (read as 0). -/
def readPresence (s : List CallRecord) (presenceUpdatedAt : Option Nat) (now : Nat) :
    PresenceResponse :=
  let updatedAtMillis := presenceUpdatedAt.getD 0
  let activeCalls := (s.filter fun r => isActiveCallStatus r.status).length
  { online := decide (0 < updatedAtMillis) &&
      decide ((now : Int) - (updatedAtMillis : Int) < 45000)
    activeCalls := activeCalls
    estimatedWaitMinutes := max 0 (((activeCalls : Int) - 1) * 6) }

/-! Concrete sample data used by the witness and counterexample theorems. -/

def emptyHandoff : Handoff :=
  { userMessage := "", summarizedLogs := "", attachedRange := none }

def cfgConfigured : TwilioConfig :=
  { accountSid := some ("AC1"), apiKey := some ("K1"), apiSecret := some ("S1"),
    twimlAppSid := some ("AP1"), pharmacistIdentity := "pharmacist_console" }

def cfgUnconfigured : TwilioConfig :=
  { accountSid := none, apiKey := none, apiSecret := none,
    twimlAppSid := none, pharmacistIdentity := "pharmacist_console" }

def sampleUser : UserIdent :=
  { uid := 10, identity := "user_10", callerName := "Ada Example",
    firstName := "Ada", lastName := "Example", userEmail := "" }

def sampleCallA : CallRecord :=
  { id := 1, userId := 10, status := "in_progress", queuePosition := some 2,
    createdAt := 100, startedAt := some 50, endedAt := none, updatedAt := 100,
    handoff := emptyHandoff }

def sampleCallB : CallRecord :=
  { id := 2, userId := 20, status := "queued", queuePosition := none,
    createdAt := 90, startedAt := none, endedAt := none, updatedAt := 90,
    handoff := emptyHandoff }

def sampleState : List CallRecord := [sampleCallA, sampleCallB]

def foreignCall : CallRecord :=
  { id := 1, userId := 5, status := "queued", queuePosition := some 1,
    createdAt := 0, startedAt := none, endedAt := none, updatedAt := 0,
    handoff := emptyHandoff }

def doneCall : CallRecord :=
  { id := 1, userId := 7, status := "completed", queuePosition := none,
    createdAt := 0, startedAt := some 1, endedAt := some 2, updatedAt := 2,
    handoff := emptyHandoff }

def staffCallA : CallRecord :=
  { id := 1, userId := 10, status := "requested", queuePosition := some 1,
    createdAt := 10, startedAt := none, endedAt := none, updatedAt := 10,
    handoff := emptyHandoff }

def staffCallB : CallRecord :=
  { id := 2, userId := 20, status := "ringing", queuePosition := some 2,
    createdAt := 20, startedAt := some 5, endedAt := none, updatedAt := 20,
    handoff := emptyHandoff }

/-! Lemmas about the identity sanitizer. -/

lemma isIdentityChar_of_not_ws {c : Char} (h : isJsWhitespace c = true) :
    isIdentityChar c = false := by
  have hm : c ∈ jsWhitespaceChars := by
    simpa [isJsWhitespace] using h
  fin_cases hm <;> decide

lemma not_ws_of_identityChar {c : Char} (h : isIdentityChar c = true) :
    isJsWhitespace c = false := by
  cases hw : isJsWhitespace c with
  | false => rfl
  | true => rw [isIdentityChar_of_not_ws hw] at h; exact absurd h (by simp)

lemma dropWhile_eq_self_of_forall {p : Char → Bool} {l : List Char}
    (h : ∀ c ∈ l, p c = false) : l.dropWhile p = l := by
  cases l with
  | nil => rfl
  | cons a l => simp [List.dropWhile, h a (List.mem_cons_self a l)]

lemma jsTrim_eq_self_of_identity {l : List Char}
    (h : ∀ c ∈ l, isIdentityChar c = true) : jsTrim l = l := by
  have hws : ∀ c ∈ l, isJsWhitespace c = false := fun c hc =>
    not_ws_of_identityChar (h c hc)
  unfold jsTrim
  rw [dropWhile_eq_self_of_forall hws,
      dropWhile_eq_self_of_forall (fun c hc => hws c (List.mem_reverse.mp hc)),
      List.reverse_reverse]

lemma mem_sanitizeIdentityChars {c : Char} {l : List Char}
    (h : c ∈ sanitizeIdentityChars l) : isIdentityChar c = true := by
  unfold sanitizeIdentityChars at h
  have h2 := List.mem_of_mem_take h
  obtain ⟨a, _, ha⟩ := List.mem_map.mp h2
  by_cases hid : isIdentityChar a = true
  · rw [if_pos hid] at ha; exact ha ▸ hid
  · rw [if_neg hid] at ha; exact ha ▸ (by decide)

lemma sanitizeIdentityChars_length (l : List Char) :
    (sanitizeIdentityChars l).length ≤ 120 := by
  unfold sanitizeIdentityChars
  exact List.length_take_le 120 _

lemma sanitizeIdentityChars_idem (l : List Char) :
    sanitizeIdentityChars (sanitizeIdentityChars l) = sanitizeIdentityChars l := by
  have hall : ∀ c ∈ sanitizeIdentityChars l, isIdentityChar c = true :=
    fun c hc => mem_sanitizeIdentityChars hc
  conv_lhs => rw [sanitizeIdentityChars]
  rw [jsTrim_eq_self_of_identity hall]
  rw [List.map_congr_left (fun c hc => if_pos (hall c hc)), List.map_id']
  exact List.take_of_length_le (sanitizeIdentityChars_length l)

/-! Lemmas about the stable sort by `createdAt`. -/

lemma mem_insertByCreatedAt {x r : CallRecord} {l : List CallRecord} :
    x ∈ insertByCreatedAt r l ↔ x = r ∨ x ∈ l := by
  induction l with
  | nil => simp [insertByCreatedAt]
  | cons a l ih =>
    unfold insertByCreatedAt
    by_cases h : a.createdAt < r.createdAt
    · rw [if_pos h]
      simp only [List.mem_cons, ih]
      tauto
    · rw [if_neg h]
      simp only [List.mem_cons]

lemma insertByCreatedAt_perm (r : CallRecord) (l : List CallRecord) :
    List.Perm (insertByCreatedAt r l) (r :: l) := by
  induction l with
  | nil => exact List.Perm.refl _
  | cons a l ih =>
    unfold insertByCreatedAt
    by_cases h : a.createdAt < r.createdAt
    · rw [if_pos h]
      exact (ih.cons a).trans (List.Perm.swap r a l)
    · rw [if_neg h]

lemma sortByCreatedAt_perm (l : List CallRecord) : List.Perm (sortByCreatedAt l) l := by
  induction l with
  | nil => exact List.Perm.refl _
  | cons a l ih =>
    rw [sortByCreatedAt]
    exact (insertByCreatedAt_perm a _).trans (ih.cons a)

lemma pairwise_insertByCreatedAt {r : CallRecord} {l : List CallRecord}
    (h : l.Pairwise fun a b => a.createdAt ≤ b.createdAt) :
    (insertByCreatedAt r l).Pairwise fun a b => a.createdAt ≤ b.createdAt := by
  induction l with
  | nil => simp [insertByCreatedAt]
  | cons a l ih =>
    rw [List.pairwise_cons] at h
    obtain ⟨ha, hl⟩ := h
    unfold insertByCreatedAt
    by_cases hc : a.createdAt < r.createdAt
    · rw [if_pos hc, List.pairwise_cons]
      refine ⟨?_, ih hl⟩
      intro x hx
      rcases mem_insertByCreatedAt.mp hx with rfl | hx
      · exact Nat.le_of_lt hc
      · exact ha x hx
    · rw [if_neg hc, List.pairwise_cons]
      refine ⟨?_, List.pairwise_cons.mpr ⟨ha, hl⟩⟩
      intro x hx
      rcases List.mem_cons.mp hx with rfl | hx
      · exact Nat.le_of_not_lt hc
      · exact Nat.le_trans (Nat.le_of_not_lt hc) (ha x hx)

lemma pairwise_sortByCreatedAt (l : List CallRecord) :
    (sortByCreatedAt l).Pairwise fun a b => a.createdAt ≤ b.createdAt := by
  induction l with
  | nil => simp [sortByCreatedAt]
  | cons a l ih =>
    rw [sortByCreatedAt]
    exact pairwise_insertByCreatedAt ih

lemma filter_createdAt_insertByCreatedAt (k : Nat) (r : CallRecord) (l : List CallRecord) :
    (insertByCreatedAt r l).filter (fun x => x.createdAt == k) =
      (if r.createdAt == k then [r] else []) ++ l.filter (fun x => x.createdAt == k) := by
  induction l with
  | nil =>
    unfold insertByCreatedAt
    by_cases hr : (r.createdAt == k) = true <;> simp [List.filter_cons, hr]
  | cons a l ih =>
    unfold insertByCreatedAt
    by_cases hc : a.createdAt < r.createdAt
    · rw [if_pos hc, List.filter_cons, ih]
      by_cases ha : (a.createdAt == k) = true
      · have hr : (r.createdAt == k) = false := by
          rw [beq_iff_eq] at ha
          rw [beq_eq_false_iff_ne]
          omega
        simp [ha, hr]
      · simp only [Bool.not_eq_true] at ha
        simp [ha]
    · rw [if_neg hc, List.filter_cons, List.filter_cons]
      by_cases hr : (r.createdAt == k) = true <;> simp [hr, List.filter_cons]

lemma filter_createdAt_sortByCreatedAt (k : Nat) (l : List CallRecord) :
    (sortByCreatedAt l).filter (fun x => x.createdAt == k) =
      l.filter (fun x => x.createdAt == k) := by
  induction l with
  | nil => rfl
  | cons a l ih =>
    rw [sortByCreatedAt, filter_createdAt_insertByCreatedAt, ih, List.filter_cons]
    by_cases ha : (a.createdAt == k) = true <;> simp [ha]

lemma insertByCreatedAt_map {f : CallRecord → CallRecord}
    (hf : ∀ r, (f r).createdAt = r.createdAt) (r : CallRecord) (l : List CallRecord) :
    insertByCreatedAt (f r) (l.map f) = (insertByCreatedAt r l).map f := by
  induction l with
  | nil => rfl
  | cons a l ih =>
    rw [List.map_cons]
    unfold insertByCreatedAt
    rw [hf a, hf r]
    by_cases hc : a.createdAt < r.createdAt
    · rw [if_pos hc, if_pos hc, List.map_cons, ih]
    · rw [if_neg hc, if_neg hc]
      rfl

lemma sortByCreatedAt_map {f : CallRecord → CallRecord}
    (hf : ∀ r, (f r).createdAt = r.createdAt) (l : List CallRecord) :
    sortByCreatedAt (l.map f) = (sortByCreatedAt l).map f := by
  induction l with
  | nil => rfl
  | cons a l ih =>
    rw [List.map_cons, sortByCreatedAt, sortByCreatedAt, ih, insertByCreatedAt_map hf]

lemma filter_map_comm {f : CallRecord → CallRecord} {p : CallRecord → Bool} :
    ∀ {l : List CallRecord}, (∀ r ∈ l, p (f r) = p r) →
      (l.map f).filter p = (l.filter p).map f := by
  intro l
  induction l with
  | nil => intro _; rfl
  | cons a l ih =>
    intro h
    have ha := h a (List.mem_cons_self a l)
    have ht := ih fun r hr => h r (List.mem_cons_of_mem a hr)
    by_cases hp : p a = true <;>
      simp [List.filter_cons, ha, hp, ht]

/-! Lemmas about the rebalance batch. -/

lemma applyRebalanceWrite_id (now : Nat) (w : RebalanceWrite) (r : CallRecord) :
    (applyRebalanceWrite now w r).id = r.id := rfl

lemma applyRebalanceWrite_userId (now : Nat) (w : RebalanceWrite) (r : CallRecord) :
    (applyRebalanceWrite now w r).userId = r.userId := rfl

lemma applyRebalanceWrite_createdAt (now : Nat) (w : RebalanceWrite) (r : CallRecord) :
    (applyRebalanceWrite now w r).createdAt = r.createdAt := rfl

lemma applyWritesTo_id (ws : List RebalanceWrite) (now : Nat) (r : CallRecord) :
    (applyWritesTo ws now r).id = r.id := by
  unfold applyWritesTo
  split <;> rfl

lemma applyWritesTo_userId (ws : List RebalanceWrite) (now : Nat) (r : CallRecord) :
    (applyWritesTo ws now r).userId = r.userId := by
  unfold applyWritesTo
  split <;> rfl

lemma applyWritesTo_createdAt (ws : List RebalanceWrite) (now : Nat) (r : CallRecord) :
    (applyWritesTo ws now r).createdAt = r.createdAt := by
  unfold applyWritesTo
  split <;> rfl

lemma rebalanceWriteFor_some_id {pos : Nat} {r : CallRecord} {w : RebalanceWrite}
    (h : rebalanceWriteFor pos r = some w) : w.id = r.id := by
  unfold rebalanceWriteFor at h
  split at h
  · cases h; rfl
  · simp at h

lemma rebalanceWriteFor_promote {pos : Nat} {r : CallRecord} {w : RebalanceWrite}
    (h : rebalanceWriteFor pos r = some w) (hp : w.promoteToRequested = true) :
    pos = 1 ∧ r.status = "queued" := by
  unfold rebalanceWriteFor at h
  split at h
  · cases h; simpa using hp
  · simp at h

lemma mem_rebalanceWritesFrom {w : RebalanceWrite} :
    ∀ {pos : Nat} {docs : List CallRecord}, w ∈ rebalanceWritesFrom pos docs →
      ∃ d ∈ docs, d.id = w.id ∧ (w.promoteToRequested = true → d.status = "queued") := by
  intro pos docs
  induction docs generalizing pos with
  | nil => intro h; simp [rebalanceWritesFrom] at h
  | cons r rs ih =>
    intro h
    rw [rebalanceWritesFrom] at h
    cases hfor : rebalanceWriteFor pos r with
    | some w0 =>
      rw [hfor] at h
      rcases List.mem_cons.mp h with rfl | h2
      · exact ⟨r, List.mem_cons_self r rs, (rebalanceWriteFor_some_id hfor).symm,
          fun hp => (rebalanceWriteFor_promote hfor hp).2⟩
      · obtain ⟨d, hd, h3, h4⟩ := ih h2
        exact ⟨d, List.mem_cons_of_mem r hd, h3, h4⟩
    | none =>
      rw [hfor] at h
      obtain ⟨d, hd, h3, h4⟩ := ih h
      exact ⟨d, List.mem_cons_of_mem r hd, h3, h4⟩

lemma rebalanceStep_id (now pos : Nat) (r : CallRecord) :
    (rebalanceStep now pos r).id = r.id := by
  unfold rebalanceStep
  split <;> rfl

lemma rebalanceStep_userId (now pos : Nat) (r : CallRecord) :
    (rebalanceStep now pos r).userId = r.userId := by
  unfold rebalanceStep
  split <;> rfl

lemma rebalanceStep_createdAt (now pos : Nat) (r : CallRecord) :
    (rebalanceStep now pos r).createdAt = r.createdAt := by
  unfold rebalanceStep
  split <;> rfl

lemma rebalanceStep_queuePosition (now pos : Nat) (r : CallRecord) :
    (rebalanceStep now pos r).queuePosition = some pos := by
  unfold rebalanceStep rebalanceWriteFor
  by_cases hq : r.queuePosition ≠ some pos
  · rw [if_pos (Or.inl hq)]
    simp [applyRebalanceWrite, hq]
  · by_cases hP : pos = 1 ∧ r.status = "queued"
    · rw [if_pos (Or.inr hP)]
      simp [applyRebalanceWrite, hq]
      push_neg at hq
      exact hq
    · rw [if_neg (by tauto)]
      push_neg at hq
      exact hq

lemma rebalanceStep_status (now pos : Nat) (r : CallRecord) :
    (rebalanceStep now pos r).status =
      if pos = 1 ∧ r.status = "queued" then "requested" else r.status := by
  unfold rebalanceStep rebalanceWriteFor
  by_cases hP : pos = 1 ∧ r.status = "queued"
  · rw [if_pos (Or.inr hP), if_pos hP]
    simp [applyRebalanceWrite, hP]
  · rw [if_neg hP]
    by_cases hq : r.queuePosition ≠ some pos
    · rw [if_pos (Or.inl hq)]
      simp [applyRebalanceWrite, hP]
    · rw [if_neg (by tauto)]

lemma rebalanceWritesFrom_rebalancedDocs (now : Nat) :
    ∀ (pos : Nat) (docs : List CallRecord),
      rebalanceWritesFrom pos (rebalancedDocsFrom now pos docs) = [] := by
  intro pos docs
  induction docs generalizing pos with
  | nil => rfl
  | cons r rs ih =>
    rw [rebalancedDocsFrom, rebalanceWritesFrom]
    have hcond : ¬((rebalanceStep now pos r).queuePosition ≠ some pos ∨
        (pos = 1 ∧ (rebalanceStep now pos r).status = "queued")) := by
      push_neg
      constructor
      · exact rebalanceStep_queuePosition now pos r
      · intro h1
        rw [rebalanceStep_status]
        by_cases h2 : r.status = "queued"
        · rw [if_pos ⟨h1, h2⟩]
          decide
        · rw [if_neg fun hx => h2 hx.2]
          exact h2
    have hnone : rebalanceWriteFor pos (rebalanceStep now pos r) = none := by
      unfold rebalanceWriteFor
      rw [if_neg hcond]
    rw [hnone]
    exact ih (pos + 1)

lemma applyWritesTo_cons_ne {w : RebalanceWrite} {ws : List RebalanceWrite} {now : Nat}
    {x : CallRecord} (h : w.id ≠ x.id) :
    applyWritesTo (w :: ws) now x = applyWritesTo ws now x := by
  unfold applyWritesTo
  rw [List.find?_cons_of_neg]
  simpa using h

lemma map_applyWritesTo_rebalancedDocs (now : Nat) :
    ∀ (pos : Nat) (docs : List CallRecord), ((docs.map fun r => r.id).Nodup) →
      docs.map (applyWritesTo (rebalanceWritesFrom pos docs) now) =
        rebalancedDocsFrom now pos docs := by
  intro pos docs
  induction docs generalizing pos with
  | nil => intro _; rfl
  | cons r rs ih =>
    intro hnd
    rw [List.map_cons, List.nodup_cons] at hnd
    obtain ⟨hne, hnd2⟩ := hnd
    rw [rebalancedDocsFrom, rebalanceWritesFrom, List.map_cons]
    have hxne : ∀ x ∈ rs, r.id ≠ x.id := by
      intro x hx heq
      exact hne (heq ▸ List.mem_map_of_mem (fun r => r.id) hx)
    cases hfor : rebalanceWriteFor pos r with
    | some w =>
      have hid : w.id = r.id := rebalanceWriteFor_some_id hfor
      congr 1
      · unfold applyWritesTo
        rw [List.find?_cons_of_pos _ (by simp [hid])]
        rw [rebalanceStep, hfor]
      · have hmap : rs.map (applyWritesTo (w :: rebalanceWritesFrom (pos + 1) rs) now) =
            rs.map (applyWritesTo (rebalanceWritesFrom (pos + 1) rs) now) :=
          List.map_congr_left fun x hx =>
            applyWritesTo_cons_ne (hid ▸ hxne x hx)
        rw [hmap, ih (pos + 1) hnd2]
    | none =>
      congr 1
      · have hfind : (rebalanceWritesFrom (pos + 1) rs).find? (fun w => w.id == r.id) = none := by
          rw [List.find?_eq_none]
          intro w' hw'
          obtain ⟨d, hd, hdid, _⟩ := mem_rebalanceWritesFrom hw'
          simp only [beq_iff_eq]
          intro heq
          exact hxne d hd (heq ▸ hdid).symm
        unfold applyWritesTo
        rw [hfind, rebalanceStep, hfor]
      · exact ih (pos + 1) hnd2

lemma nodup_ids_listActiveCalls (s : List CallRecord)
    (hids : (s.map fun r => r.id).Nodup) :
    ((listActiveCalls s).map fun r => r.id).Nodup := by
  have h1 : ((s.filter fun r => isActiveCallStatus r.status).map fun r => r.id).Nodup :=
    hids.sublist ((List.filter_sublist s).map fun r => r.id)
  have h2 := (sortByCreatedAt_perm (s.filter fun r => isActiveCallStatus r.status)).map
    fun r => r.id
  exact (h2.nodup_iff).mpr h1

lemma applyWritesTo_active (s : List CallRecord) (now : Nat)
    (hids : (s.map fun r => r.id).Nodup) :
    ∀ r ∈ s, isActiveCallStatus (applyWritesTo (callQueueWrites s) now r).status =
      isActiveCallStatus r.status := by
  intro r hr
  unfold applyWritesTo
  cases hf : (callQueueWrites s).find? (fun w => w.id == r.id) with
  | none => rfl
  | some w =>
    have hw : w ∈ callQueueWrites s := List.mem_of_find?_eq_some hf
    have hwid : w.id = r.id := by
      have := List.find?_some hf
      simpa using this
    obtain ⟨d, hd, hdid, hprom⟩ := mem_rebalanceWritesFrom hw
    have hdmem : d ∈ s.filter (fun r => isActiveCallStatus r.status) :=
      ((sortByCreatedAt_perm _).mem_iff).mp hd
    have hdact : isActiveCallStatus d.status = true := (List.mem_filter.mp hdmem).2
    have hds : d ∈ s := (List.mem_filter.mp hdmem).1
    have hdr : d = r := List.inj_on_of_nodup_map hids hds hr (by rw [hdid, hwid])
    subst hdr
    by_cases hp : w.promoteToRequested = true
    · have hq : d.status = "queued" := hprom hp
      simp only [applyRebalanceWrite, hp, if_pos]
      rw [hq]
      decide
    · simp only [Bool.not_eq_true] at hp
      simp [applyRebalanceWrite, hp]

lemma rebalanceCallQueue_ids (s : List CallRecord) (now : Nat) :
    (rebalanceCallQueue s now).map (fun r => r.id) = s.map fun r => r.id := by
  unfold rebalanceCallQueue
  rw [List.map_map]
  exact List.map_congr_left fun r _ => applyWritesTo_id _ _ _

lemma active_userIds_rebalance (s : List CallRecord) (now : Nat)
    (hids : (s.map fun r => r.id).Nodup) :
    ((rebalanceCallQueue s now).filter fun r => isActiveCallStatus r.status).map
        (fun r => r.userId) =
      (s.filter fun r => isActiveCallStatus r.status).map fun r => r.userId := by
  unfold rebalanceCallQueue
  rw [filter_map_comm (applyWritesTo_active s now hids), List.map_map]
  exact List.map_congr_left fun r _ => applyWritesTo_userId _ _ _

lemma listActiveCalls_rebalance (s : List CallRecord) (now : Nat)
    (hids : (s.map fun r => r.id).Nodup) :
    listActiveCalls (rebalanceCallQueue s now) =
      rebalancedDocsFrom now 1 (listActiveCalls s) := by
  unfold rebalanceCallQueue
  show listActiveCalls (s.map (applyWritesTo (callQueueWrites s) now)) = _
  unfold listActiveCalls
  rw [filter_map_comm (applyWritesTo_active s now hids)]
  rw [sortByCreatedAt_map fun r => applyWritesTo_createdAt _ _ r]
  exact map_applyWritesTo_rebalancedDocs now 1
    (sortByCreatedAt (s.filter fun r => isActiveCallStatus r.status))
    (nodup_ids_listActiveCalls s hids)

lemma rebalancedDocs_ids (now : Nat) :
    ∀ (pos : Nat) (docs : List CallRecord),
      (rebalancedDocsFrom now pos docs).map (fun r => r.id) = docs.map fun r => r.id := by
  intro pos docs
  induction docs generalizing pos with
  | nil => rfl
  | cons r rs ih =>
    rw [rebalancedDocsFrom, List.map_cons, List.map_cons, rebalanceStep_id, ih (pos + 1)]

lemma rebalancedDocs_length (now : Nat) :
    ∀ (pos : Nat) (docs : List CallRecord),
      (rebalancedDocsFrom now pos docs).length = docs.length := by
  intro pos docs
  induction docs generalizing pos with
  | nil => rfl
  | cons r rs ih => rw [rebalancedDocsFrom, List.length_cons, List.length_cons, ih (pos + 1)]

lemma rebalancedDocs_queuePositions (now : Nat) :
    ∀ (pos : Nat) (docs : List CallRecord),
      (rebalancedDocsFrom now pos docs).map (fun r => r.queuePosition) =
        (List.range' pos docs.length).map some := by
  intro pos docs
  induction docs generalizing pos with
  | nil => rfl
  | cons r rs ih =>
    rw [rebalancedDocsFrom, List.map_cons, rebalanceStep_queuePosition, List.length_cons,
        List.range', List.map_cons, ih (pos + 1)]

lemma rebalancedDocs_get_queuePosition (now : Nat) :
    ∀ (pos : Nat) (docs : List CallRecord) (i : Nat)
      (hi : i < (rebalancedDocsFrom now pos docs).length),
      ((rebalancedDocsFrom now pos docs).get ⟨i, hi⟩).queuePosition = some (pos + i) := by
  intro pos docs
  induction docs generalizing pos with
  | nil => intro i hi; simp [rebalancedDocsFrom] at hi
  | cons r rs ih =>
    intro i hi
    cases i with
    | zero => simpa [rebalancedDocsFrom] using rebalanceStep_queuePosition now pos r
    | succ j =>
      have hj : j < (rebalancedDocsFrom now (pos + 1) rs).length := by
        simpa [rebalancedDocsFrom] using hi
      have := ih (pos + 1) j hj
      simpa [rebalancedDocsFrom, Nat.add_assoc, Nat.add_comm 1 j] using this

lemma rebalancedDocs_statuses_tail (now : Nat) :
    ∀ (pos : Nat) (docs : List CallRecord), 2 ≤ pos →
      (rebalancedDocsFrom now pos docs).map (fun r => r.status) =
        docs.map fun r => r.status := by
  intro pos docs
  induction docs generalizing pos with
  | nil => intro _; rfl
  | cons r rs ih =>
    intro hpos
    rw [rebalancedDocsFrom, List.map_cons, List.map_cons, rebalanceStep_status,
        if_neg fun hx => absurd hx.1 (by omega), ih (pos + 1) (by omega)]

lemma rebalancedDocs_statuses (now : Nat) (docs : List CallRecord) :
    (rebalancedDocsFrom now 1 docs).map (fun r => r.status) =
      match docs with
      | [] => []
      | d :: rest => (if d.status = "queued" then "requested" else d.status) ::
          rest.map fun r => r.status := by
  cases docs with
  | nil => rfl
  | cons d rest =>
    show (rebalancedDocsFrom now 1 (d :: rest)).map (fun r => r.status) =
      (if d.status = "queued" then "requested" else d.status) :: rest.map fun r => r.status
    rw [rebalancedDocsFrom, List.map_cons, rebalanceStep_status,
        rebalancedDocs_statuses_tail now 2 rest (by omega)]
    by_cases hq : d.status = "queued"
    · rw [if_pos ⟨rfl, hq⟩, if_pos hq]
    · rw [if_neg fun hx => hq hx.2, if_neg hq]

/-- C1: `rebalanceCallQueue` reads the active records sorted by
`createdAt` ascending with ties kept in insertion (arrival) order, gives
the record at rank `i` the queue position `i + 1`, promotes the rank-0
record from `queued` to `requested` when it is currently `queued`, and
leaves every other rank's status unchanged. -/
theorem rebalance_orders_positions_and_promotes (s : List CallRecord) (now : Nat)
    (hids : (s.map fun r => r.id).Nodup) :
    (listActiveCalls s).Pairwise (fun a b => a.createdAt ≤ b.createdAt) ∧
    (∀ k : Nat, (listActiveCalls s).filter (fun x => x.createdAt == k) =
      (s.filter fun r => isActiveCallStatus r.status).filter (fun x => x.createdAt == k)) ∧
    (listActiveCalls (rebalanceCallQueue s now)).map (fun r => r.id) =
      (listActiveCalls s).map (fun r => r.id) ∧
    (listActiveCalls (rebalanceCallQueue s now)).map (fun r => r.queuePosition) =
      (List.range' 1 (listActiveCalls s).length).map some ∧
    (listActiveCalls (rebalanceCallQueue s now)).map (fun r => r.status) =
      (match listActiveCalls s with
       | [] => []
       | d :: rest => (if d.status = "queued" then "requested" else d.status) ::
           rest.map fun r => r.status) := by
  refine ⟨pairwise_sortByCreatedAt _, fun k => filter_createdAt_sortByCreatedAt k _, ?_, ?_, ?_⟩
  · rw [listActiveCalls_rebalance s now hids, rebalancedDocs_ids]
  · rw [listActiveCalls_rebalance s now hids, rebalancedDocs_queuePositions]
  · rw [listActiveCalls_rebalance s now hids, rebalancedDocs_statuses]

theorem rebalance_orders_positions_and_promotes_witness :
    ((sampleState.map fun r => r.id).Nodup) ∧
    ((listActiveCalls sampleState).Pairwise (fun a b => a.createdAt ≤ b.createdAt) ∧
     (∀ k : Nat, (listActiveCalls sampleState).filter (fun x => x.createdAt == k) =
       (sampleState.filter fun r => isActiveCallStatus r.status).filter
         (fun x => x.createdAt == k)) ∧
     (listActiveCalls (rebalanceCallQueue sampleState 5)).map (fun r => r.id) =
       (listActiveCalls sampleState).map (fun r => r.id) ∧
     (listActiveCalls (rebalanceCallQueue sampleState 5)).map (fun r => r.queuePosition) =
       (List.range' 1 (listActiveCalls sampleState).length).map some ∧
     (listActiveCalls (rebalanceCallQueue sampleState 5)).map (fun r => r.status) =
       (match listActiveCalls sampleState with
        | [] => []
        | d :: rest => (if d.status = "queued" then "requested" else d.status) ::
            rest.map fun r => r.status)) :=
  ⟨by decide, rebalance_orders_positions_and_promotes sampleState 5 (by decide)⟩

/-- C5: rebalance is idempotent: immediately after one rebalance a second
one computes an empty batch (so `batch.commit()` never runs: every active
record already has `queuePosition = rank + 1` and the head is no longer
`queued`), and the state is unchanged. -/
theorem rebalance_idempotent (s : List CallRecord) (now now2 : Nat)
    (hids : (s.map fun r => r.id).Nodup) :
    callQueueWrites (rebalanceCallQueue s now) = [] ∧
    rebalanceCallQueue (rebalanceCallQueue s now) now2 = rebalanceCallQueue s now := by
  have h1 : callQueueWrites (rebalanceCallQueue s now) = [] := by
    unfold callQueueWrites
    rw [listActiveCalls_rebalance s now hids]
    exact rebalanceWritesFrom_rebalancedDocs now 1 (listActiveCalls s)
  refine ⟨h1, ?_⟩
  conv_lhs => rw [rebalanceCallQueue]
  rw [h1]
  calc (rebalanceCallQueue s now).map (applyWritesTo [] now2)
      = (rebalanceCallQueue s now).map (fun r => r) :=
        List.map_congr_left fun r _ => rfl
    _ = rebalanceCallQueue s now := List.map_id' _

theorem rebalance_idempotent_witness :
    ((sampleState.map fun r => r.id).Nodup) ∧
    (callQueueWrites (rebalanceCallQueue sampleState 5) = [] ∧
     rebalanceCallQueue (rebalanceCallQueue sampleState 5) 6 = rebalanceCallQueue sampleState 5) :=
  ⟨by decide, rebalance_idempotent sampleState 5 6 (by decide)⟩

/-! Lemmas about the two status-update routes. -/

lemma find?_map_id_pred {g : CallRecord → CallRecord} (hg : ∀ r, (g r).id = r.id)
    (s : List CallRecord) (id0 : Nat) :
    (s.map g).find? (fun x => x.id == id0) = (s.find? (fun x => x.id == id0)).map g := by
  induction s with
  | nil => rfl
  | cons a s ih =>
    rw [List.map_cons, List.find?_cons, List.find?_cons]
    simp only [hg]
    by_cases ha : (a.id == id0) = true
    · simp [ha]
    · simp only [Bool.not_eq_true] at ha
      simp [ha, ih]

lemma rebalance_find_status (s2 : List CallRecord) (now id0 : Nat) (r2 : CallRecord)
    (hids : (s2.map fun r => r.id).Nodup)
    (hfind : s2.find? (fun x => x.id == id0) = some r2)
    (hnq : r2.status ≠ "queued") :
    (rebalanceCallQueue s2 now).find? (fun x => x.id == id0) =
      some (applyWritesTo (callQueueWrites s2) now r2) ∧
    (applyWritesTo (callQueueWrites s2) now r2).status = r2.status := by
  constructor
  · unfold rebalanceCallQueue
    rw [find?_map_id_pred (fun r => applyWritesTo_id _ _ r), hfind]
    rfl
  · unfold applyWritesTo
    cases hf : (callQueueWrites s2).find? (fun w => w.id == r2.id) with
    | none => rfl
    | some w =>
      have hw : w ∈ callQueueWrites s2 := List.mem_of_find?_eq_some hf
      have hwid : w.id = r2.id := by simpa using List.find?_some hf
      obtain ⟨d, hd, hdid, hprom⟩ := mem_rebalanceWritesFrom hw
      have hdmem : d ∈ s2.filter (fun r => isActiveCallStatus r.status) :=
        ((sortByCreatedAt_perm _).mem_iff).mp hd
      have hds : d ∈ s2 := (List.mem_filter.mp hdmem).1
      have hr2 : r2 ∈ s2 := List.mem_of_find?_eq_some hfind
      have hdr : d = r2 := List.inj_on_of_nodup_map hids hds hr2 (by rw [hdid, hwid])
      subst hdr
      by_cases hp : w.promoteToRequested = true
      · exact absurd (hprom hp) hnq
      · simp only [Bool.not_eq_true] at hp
        simp [applyRebalanceWrite, hp]

lemma userCallStatusUpdateRecord_id (r : CallRecord) (st : String) (now : Nat) :
    (userCallStatusUpdateRecord r st now).id = r.id := by
  simp only [userCallStatusUpdateRecord]
  split <;> split <;> rfl

lemma userCallStatusUpdateRecord_status (r : CallRecord) (st : String) (now : Nat) :
    (userCallStatusUpdateRecord r st now).status = st := by
  simp only [userCallStatusUpdateRecord]
  split <;> split <;> rfl

lemma pharmacistCallStatusUpdateRecord_id (st : String) (now : Nat) (r : CallRecord) :
    (pharmacistCallStatusUpdateRecord st now r).id = r.id := by
  simp only [pharmacistCallStatusUpdateRecord]
  split <;> split <;> rfl

lemma pharmacistCallStatusUpdateRecord_status (st : String) (now : Nat) (r : CallRecord) :
    (pharmacistCallStatusUpdateRecord st now r).status = st := by
  simp only [pharmacistCallStatusUpdateRecord]
  split <;> split <;> rfl

lemma updated_find_status (s : List CallRecord) (now id0 : Nat) (st : String)
    (r : CallRecord) (upd : CallRecord → CallRecord)
    (hids : (s.map fun x => x.id).Nodup)
    (hfind : s.find? (fun x => x.id == id0) = some r)
    (hupdid : ∀ x, (upd x).id = x.id)
    (hupdst : (upd r).status = st)
    (hnq : st ≠ "queued") :
    ((rebalanceCallQueue (s.map fun x => if x.id == id0 then upd x else x) now).find?
      (fun x => x.id == id0)).map (fun x => x.status) = some st := by
  have hgid : ∀ x : CallRecord, (if x.id == id0 then upd x else x).id = x.id := by
    intro x
    by_cases hx : (x.id == id0) = true
    · rw [if_pos hx, hupdid]
    · rw [if_neg hx]
  have hids2 : ((s.map fun x => if x.id == id0 then upd x else x).map fun x => x.id).Nodup := by
    have hmapids : (s.map fun x => if x.id == id0 then upd x else x).map (fun x => x.id) =
        s.map fun x => x.id := by
      rw [List.map_map]
      exact List.map_congr_left fun x _ => hgid x
    rw [hmapids]
    exact hids
  have hr : r.id = id0 := by simpa using List.find?_some hfind
  have hfind2 : (s.map fun x => if x.id == id0 then upd x else x).find?
      (fun x => x.id == id0) = some (upd r) := by
    rw [find?_map_id_pred hgid, hfind]
    simp [hr]
  obtain ⟨hf3, hs3⟩ := rebalance_find_status _ now id0 (upd r) hids2 hfind2
    (by rw [hupdst]; exact hnq)
  rw [hf3]
  simp only [Option.map_some']
  rw [hs3, hupdst]

/-- C3 corrected (the counterexample is below): neither status route
inspects the record's current status.  A record whose status is terminal
accepts any whitelisted status from its owner on the user route and the
same status on the staff route, and the stored status is overwritten with
the requested value, so a terminal status can revert to a non-terminal
one; terminal states do not absorb. -/
theorem status_routes_overwrite_terminal (s : List CallRecord) (now uid id0 : Nat)
    (st : String) (r : CallRecord)
    (hids : (s.map fun x => x.id).Nodup)
    (hfind : s.find? (fun x => x.id == id0) = some r)
    (hown : r.userId = uid)
    (hst : USER_UPDATABLE_CALL_STATUSES.contains st = true) :
    ((userUpdateCallStatus s now uid id0 st).2 = .ok ∧
     ((userUpdateCallStatus s now uid id0 st).1.find? (fun x => x.id == id0)).map
        (fun x => x.status) = some st) ∧
    ((pharmacistUpdateCallStatus s now id0 (some st)).2 = .ok ∧
     ((pharmacistUpdateCallStatus s now id0 (some st)).1.find? (fun x => x.id == id0)).map
        (fun x => x.status) = some st) := by
  have hmem : st ∈ USER_UPDATABLE_CALL_STATUSES := by simpa using hst
  have hstq : st ≠ "queued" := by
    intro h
    rw [h] at hmem
    revert hmem
    decide
  have hne : st ≠ "" := by
    intro h
    rw [h] at hmem
    revert hmem
    decide
  have hbeq : (r.userId == uid) = true := by simpa using hown
  have huser : userUpdateCallStatus s now uid id0 st =
      (rebalanceCallQueue
        (s.map fun x => if x.id == id0 then userCallStatusUpdateRecord x st now else x) now,
       .ok) := by
    unfold userUpdateCallStatus
    rw [if_pos hst]
    simp only [hfind]
    rw [if_pos hbeq]
  have hstaff : pharmacistUpdateCallStatus s now id0 (some st) =
      (rebalanceCallQueue
        (s.map fun x => if x.id == id0 then pharmacistCallStatusUpdateRecord st now x else x)
        now, .ok) := by
    unfold pharmacistUpdateCallStatus
    simp only [if_neg hne, hfind]
  refine ⟨⟨by rw [huser], ?_⟩, by rw [hstaff], ?_⟩
  · rw [huser]
    exact updated_find_status s now id0 st r _ hids hfind
      (fun x => userCallStatusUpdateRecord_id x st now)
      (userCallStatusUpdateRecord_status r st now) hstq
  · rw [hstaff]
    exact updated_find_status s now id0 st r _ hids hfind
      (fun x => pharmacistCallStatusUpdateRecord_id st now x)
      (pharmacistCallStatusUpdateRecord_status st now r) hstq

theorem status_routes_overwrite_terminal_witness :
    (([doneCall].map fun x => x.id).Nodup) ∧
    ([doneCall].find? (fun x => x.id == 1) = some doneCall) ∧
    (doneCall.userId = 7) ∧
    (USER_UPDATABLE_CALL_STATUSES.contains ("ringing") = true) ∧
    (((userUpdateCallStatus [doneCall] 9 7 1 ("ringing")).2 = .ok ∧
      ((userUpdateCallStatus [doneCall] 9 7 1 ("ringing")).1.find? (fun x => x.id == 1)).map
        (fun x => x.status) = some ("ringing")) ∧
     ((pharmacistUpdateCallStatus [doneCall] 9 1 (some ("ringing"))).2 = .ok ∧
      ((pharmacistUpdateCallStatus [doneCall] 9 1 (some ("ringing"))).1.find?
          (fun x => x.id == 1)).map (fun x => x.status) = some ("ringing"))) :=
  ⟨by decide, by decide, by decide, by decide,
   status_routes_overwrite_terminal [doneCall] 9 7 1 ("ringing") doneCall
     (by decide) (by decide) (by decide) (by decide)⟩

/-- C3 counterexample: `doneCall` is terminal (`completed`), yet its owner
may move it back to `ringing` through the user route: the request is
accepted and the stored status becomes non-terminal again, contradicting
the claim that terminal records reject or ignore such updates. -/
theorem terminal_status_reverted_counterexample :
    isTerminalCallStatus doneCall.status = true ∧
    isTerminalCallStatus ("ringing") = false ∧
    (userUpdateCallStatus [doneCall] 9 7 1 ("ringing")).2 = .ok ∧
    (((userUpdateCallStatus [doneCall] 9 7 1 ("ringing")).1.find?
        (fun x => x.id == 1)).map fun x => x.status) = some ("ringing") := by decide

/-- C7 amended: for a whitelisted requested status, a status update on an
existing record owned by a different user is rejected with
PermissionDenied (403) and the state is unchanged; a non-whitelisted
status is rejected with InvalidArgument (400) before ownership is looked
at (see the counterexample). -/
theorem user_status_ownership_denied (s : List CallRecord) (now uid id0 : Nat)
    (st : String) (r : CallRecord)
    (hst : USER_UPDATABLE_CALL_STATUSES.contains st = true)
    (hfind : s.find? (fun x => x.id == id0) = some r)
    (hown : r.userId ≠ uid) :
    userUpdateCallStatus s now uid id0 st =
      (s, .err 403 "You cannot update this call request.") := by
  unfold userUpdateCallStatus
  rw [if_pos hst]
  simp only [hfind]
  rw [if_neg (by simpa using hown)]

theorem user_status_ownership_denied_witness :
    (USER_UPDATABLE_CALL_STATUSES.contains ("ringing") = true) ∧
    ([foreignCall].find? (fun x => x.id == 1) = some foreignCall) ∧
    (foreignCall.userId ≠ 6) ∧
    userUpdateCallStatus [foreignCall] 3 6 1 ("ringing") =
      ([foreignCall], .err 403 "You cannot update this call request.") :=
  ⟨by decide, by decide, by decide,
   user_status_ownership_denied [foreignCall] 3 6 1 ("ringing") foreignCall
     (by decide) (by decide) (by decide)⟩

/-- C7 counterexample: the whitelist check runs before the ownership
check, so a request on a foreign record with a status outside the user
whitelist is answered with InvalidArgument (400), not PermissionDenied
(403); the record is nevertheless unchanged. -/
theorem user_status_ownership_counterexample :
    (([foreignCall].find? (fun x => x.id == 1)).map (fun x => x.userId) = some 5) ∧
    userUpdateCallStatus [foreignCall] 3 6 1 ("bogus") =
      ([foreignCall], .err 400 "Invalid call status.") := by decide

lemma rebalance_find_status_or (s2 : List CallRecord) (now id0 : Nat) (r2 : CallRecord)
    (hids : (s2.map fun r => r.id).Nodup)
    (hfind : s2.find? (fun x => x.id == id0) = some r2) :
    (rebalanceCallQueue s2 now).find? (fun x => x.id == id0) =
      some (applyWritesTo (callQueueWrites s2) now r2) ∧
    ((applyWritesTo (callQueueWrites s2) now r2).status = r2.status ∨
      (r2.status = "queued" ∧
       (applyWritesTo (callQueueWrites s2) now r2).status = "requested")) := by
  constructor
  · unfold rebalanceCallQueue
    rw [find?_map_id_pred (fun r => applyWritesTo_id _ _ r), hfind]
    rfl
  · unfold applyWritesTo
    cases hf : (callQueueWrites s2).find? (fun w => w.id == r2.id) with
    | none => exact Or.inl rfl
    | some w =>
      have hw : w ∈ callQueueWrites s2 := List.mem_of_find?_eq_some hf
      have hwid : w.id = r2.id := by simpa using List.find?_some hf
      obtain ⟨d, hd, hdid, hprom⟩ := mem_rebalanceWritesFrom hw
      have hdmem : d ∈ s2.filter (fun r => isActiveCallStatus r.status) :=
        ((sortByCreatedAt_perm _).mem_iff).mp hd
      have hds : d ∈ s2 := (List.mem_filter.mp hdmem).1
      have hr2 : r2 ∈ s2 := List.mem_of_find?_eq_some hfind
      have hdr : d = r2 := List.inj_on_of_nodup_map hids hds hr2 (by rw [hdid, hwid])
      subst hdr
      by_cases hp : w.promoteToRequested = true
      · refine Or.inr ⟨hprom hp, ?_⟩
        simp [applyRebalanceWrite, hp]
      · simp only [Bool.not_eq_true] at hp
        exact Or.inl (by simp [applyRebalanceWrite, hp])

lemma updated_find_status_or (s : List CallRecord) (now id0 : Nat) (st : String)
    (r : CallRecord) (upd : CallRecord → CallRecord)
    (hids : (s.map fun x => x.id).Nodup)
    (hfind : s.find? (fun x => x.id == id0) = some r)
    (hupdid : ∀ x, (upd x).id = x.id)
    (hupdst : (upd r).status = st) :
    ∃ r2, (rebalanceCallQueue (s.map fun x => if x.id == id0 then upd x else x) now).find?
        (fun x => x.id == id0) = some r2 ∧
      (r2.status = st ∨ (st = "queued" ∧ r2.status = "requested")) := by
  have hgid : ∀ x : CallRecord, (if x.id == id0 then upd x else x).id = x.id := by
    intro x
    by_cases hx : (x.id == id0) = true
    · rw [if_pos hx, hupdid]
    · rw [if_neg hx]
  have hids2 : ((s.map fun x => if x.id == id0 then upd x else x).map fun x => x.id).Nodup := by
    have hmapids : (s.map fun x => if x.id == id0 then upd x else x).map (fun x => x.id) =
        s.map fun x => x.id := by
      rw [List.map_map]
      exact List.map_congr_left fun x _ => hgid x
    rw [hmapids]
    exact hids
  have hr : r.id = id0 := by simpa using List.find?_some hfind
  have hfind2 : (s.map fun x => if x.id == id0 then upd x else x).find?
      (fun x => x.id == id0) = some (upd r) := by
    rw [find?_map_id_pred hgid, hfind]
    simp [hr]
  obtain ⟨hf3, hs3⟩ := rebalance_find_status_or _ now id0 (upd r) hids2 hfind2
  refine ⟨_, hf3, ?_⟩
  rw [hupdst] at hs3
  rcases hs3 with h | ⟨hq, h⟩
  · exact Or.inl h
  · exact Or.inr ⟨hq, h⟩

/-- C9 amended: the staff status route performs no whitelist validation:
any non-empty status string, including values outside the status
enumeration, is accepted (the route never answers InvalidArgument) and
written to the record, the only rewriting being the rebalancer's own: a
written `queued` may immediately be promoted to `requested` by the
in-handler rebalance when the record sits at the head of the active
queue.  An absent (or empty, see the counterexample) status defaults to
`in_progress`. -/
theorem staff_status_no_whitelist (s : List CallRecord) (now id0 : Nat)
    (st : String) (r : CallRecord)
    (hids : (s.map fun x => x.id).Nodup)
    (hfind : s.find? (fun x => x.id == id0) = some r)
    (hne : st ≠ "") :
    ((pharmacistUpdateCallStatus s now id0 (some st)).2 = .ok ∧
     ∃ r2, ((pharmacistUpdateCallStatus s now id0 (some st)).1.find?
        (fun x => x.id == id0)) = some r2 ∧
       (r2.status = st ∨ (st = "queued" ∧ r2.status = "requested"))) ∧
    ((pharmacistUpdateCallStatus s now id0 none).2 = .ok ∧
     ((pharmacistUpdateCallStatus s now id0 none).1.find? (fun x => x.id == id0)).map
        (fun x => x.status) = some ("in_progress")) := by
  have hstaff : pharmacistUpdateCallStatus s now id0 (some st) =
      (rebalanceCallQueue
        (s.map fun x => if x.id == id0 then pharmacistCallStatusUpdateRecord st now x else x)
        now, .ok) := by
    unfold pharmacistUpdateCallStatus
    simp only [if_neg hne, hfind]
  have hnone : pharmacistUpdateCallStatus s now id0 none =
      (rebalanceCallQueue
        (s.map fun x => if x.id == id0 then
          pharmacistCallStatusUpdateRecord ("in_progress") now x else x) now, .ok) := by
    unfold pharmacistUpdateCallStatus
    simp only [hfind]
  refine ⟨⟨by rw [hstaff], ?_⟩, by rw [hnone], ?_⟩
  · rw [hstaff]
    exact updated_find_status_or s now id0 st r _ hids hfind
      (fun x => pharmacistCallStatusUpdateRecord_id st now x)
      (pharmacistCallStatusUpdateRecord_status st now r)
  · rw [hnone]
    exact updated_find_status s now id0 ("in_progress") r _ hids hfind
      (fun x => pharmacistCallStatusUpdateRecord_id ("in_progress") now x)
      (pharmacistCallStatusUpdateRecord_status ("in_progress") now r) (by decide)

theorem staff_status_no_whitelist_witness :
    (([staffCallA].map fun x => x.id).Nodup) ∧
    ([staffCallA].find? (fun x => x.id == 1) = some staffCallA) ∧
    (("totally_bogus" : String) ≠ "") ∧
    (((pharmacistUpdateCallStatus [staffCallA] 5 1 (some ("totally_bogus"))).2 = .ok ∧
      ∃ r2, ((pharmacistUpdateCallStatus [staffCallA] 5 1 (some ("totally_bogus"))).1.find?
          (fun x => x.id == 1)) = some r2 ∧
        (r2.status = "totally_bogus" ∨
          (("totally_bogus" : String) = "queued" ∧ r2.status = "requested"))) ∧
     ((pharmacistUpdateCallStatus [staffCallA] 5 1 none).2 = .ok ∧
      ((pharmacistUpdateCallStatus [staffCallA] 5 1 none).1.find?
          (fun x => x.id == 1)).map (fun x => x.status) = some ("in_progress"))) :=
  ⟨by decide, by decide, by decide,
   staff_status_no_whitelist [staffCallA] 5 1 ("totally_bogus") staffCallA
     (by decide) (by decide) (by decide)⟩

/-- C9 counterexample: the empty string is a status string, but
JavaScript `req.body?.status || "in_progress"` treats it as absent: the
record's status becomes `in_progress`, not the supplied empty string, so
not every supplied string is written. -/
theorem staff_empty_status_counterexample :
    (pharmacistUpdateCallStatus [staffCallA] 5 1 (some (""))).2 = .ok ∧
    (((pharmacistUpdateCallStatus [staffCallA] 5 1 (some (""))).1.find?
        (fun x => x.id == 1)).map fun x => x.status) = some ("in_progress") ∧
    (("in_progress" : String) ≠ "") := by decide

/-- C4 amended: on an `in_progress` transition the user route's update
stamps `startedAt` only when it is unset (an existing value is preserved)
and forces `queuePosition = 1`; the staff route's update always restamps
`startedAt` with the current time and leaves `queuePosition` untouched
(the rebalance that follows recomputes it from the rank). -/
theorem in_progress_stamps (r : CallRecord) (now : Nat) :
    ((userCallStatusUpdateRecord r ("in_progress") now).startedAt =
      (match r.startedAt with
       | some t => some t
       | none => some now)) ∧
    (userCallStatusUpdateRecord r ("in_progress") now).queuePosition = some 1 ∧
    (pharmacistCallStatusUpdateRecord ("in_progress") now r).startedAt = some now ∧
    (pharmacistCallStatusUpdateRecord ("in_progress") now r).queuePosition =
      r.queuePosition := by
  have hu : userCallStatusUpdateRecord r ("in_progress") now =
      { r with
        status := "in_progress"
        updatedAt := now
        startedAt := (match r.startedAt with
          | some t => some t
          | none => some now)
        queuePosition := some 1 } := by
    have hterm : isTerminalCallStatus ("in_progress") = false := by decide
    simp [userCallStatusUpdateRecord, hterm]
  have hp : pharmacistCallStatusUpdateRecord ("in_progress") now r =
      { r with
        status := "in_progress"
        updatedAt := now
        startedAt := some now } := by
    have hterm : isTerminalCallStatus ("in_progress") = false := by decide
    simp [pharmacistCallStatusUpdateRecord, hterm]
  exact ⟨by rw [hu], by rw [hu], by rw [hp], by rw [hp]⟩

/-- C4 counterexample: `staffCallB` already has `startedAt = some 5` and
rank 2; the staff route's accepted `in_progress` transition restamps
`startedAt` to the current time 99 and leaves `queuePosition` at 2, so
neither "existing startedAt is preserved" nor "queuePosition is set to 1"
holds for the staff endpoint. -/
theorem staff_in_progress_restamps_counterexample :
    (pharmacistUpdateCallStatus [staffCallA, staffCallB] 99 2 (some ("in_progress"))).2 = .ok ∧
    (((pharmacistUpdateCallStatus [staffCallA, staffCallB] 99 2
        (some ("in_progress"))).1.find? (fun x => x.id == 2)).map
      fun x => (x.startedAt, x.queuePosition)) = some (some 99, some 2) := by decide

/-- C6: when the record store reports quota exhaustion (Unavailable)
during admission, the start-call handler bypasses the queue: with Twilio
configured it answers the degraded direct-connect payload — `degraded:
true`, a voice token scoped to the caller's identity, no request id (no
queue bookkeeping), and a non-empty explanatory message; with Twilio not
configured it fails with 429 (Unavailable). -/
theorem quota_fallback_degraded (cfgA cfgB : TwilioConfig) (u : UserIdent)
    (hA : isTwilioConfigured cfgA = true)
    (hB : isTwilioConfigured cfgB = false) :
    (∃ resp, startCallQuotaFallback cfgA (some u) = Except.ok resp ∧
      resp.degraded = true ∧
      resp.token = some (createTwilioVoiceToken u.identity) ∧
      resp.requestId = none ∧ resp.queued = false ∧ resp.queuePosition = 1 ∧
      ∃ m, resp.message = some m ∧ m ≠ "") ∧
    startCallQuotaFallback cfgB (some u) =
      Except.error (429, "Live call queue is unavailable because Firestore quota is exceeded. Direct Twilio connection is also unavailable.") := by
  constructor
  · refine ⟨buildDirectTwilioCallPayload cfgA u
      (some ("Queue service is temporarily unavailable. We are connecting you directly.")),
      ?_, rfl, rfl, rfl, rfl, rfl, ⟨_, rfl, by decide⟩⟩
    simp [startCallQuotaFallback, hA]
  · simp [startCallQuotaFallback, hB]

theorem quota_fallback_degraded_witness :
    (isTwilioConfigured cfgConfigured = true) ∧
    (isTwilioConfigured cfgUnconfigured = false) ∧
    ((∃ resp, startCallQuotaFallback cfgConfigured (some sampleUser) = Except.ok resp ∧
       resp.degraded = true ∧
       resp.token = some (createTwilioVoiceToken sampleUser.identity) ∧
       resp.requestId = none ∧ resp.queued = false ∧ resp.queuePosition = 1 ∧
       ∃ m, resp.message = some m ∧ m ≠ "") ∧
     startCallQuotaFallback cfgUnconfigured (some sampleUser) =
       Except.error (429, "Live call queue is unavailable because Firestore quota is exceeded. Direct Twilio connection is also unavailable.")) :=
  ⟨rfl, rfl, quota_fallback_degraded cfgConfigured cfgUnconfigured sampleUser rfl rfl⟩

/-- C8: the presence read reports online exactly when now minus the last
heartbeat timestamp is below 45 seconds (for a real, positive heartbeat
millis value), and `estimatedWaitMinutes = max 0 ((activeCalls - 1) * 6)`
where `activeCalls` counts the records in an active status. -/
theorem presence_online_and_wait (s : List CallRecord) (lastHeartbeat now : Nat)
    (hpos : 0 < lastHeartbeat) :
    ((readPresence s (some lastHeartbeat) now).online = true ↔
      (now : Int) - (lastHeartbeat : Int) < 45000) ∧
    (readPresence s (some lastHeartbeat) now).activeCalls = countActiveCalls s ∧
    (readPresence s (some lastHeartbeat) now).estimatedWaitMinutes =
      max 0 (((countActiveCalls s : Int) - 1) * 6) := by
  refine ⟨?_, rfl, rfl⟩
  simp [readPresence, hpos]

theorem presence_online_and_wait_witness :
    (0 < 1000) ∧
    (((readPresence sampleState (some 1000) 30000).online = true ↔
       (30000 : Int) - (1000 : Int) < 45000) ∧
     (readPresence sampleState (some 1000) 30000).activeCalls = countActiveCalls sampleState ∧
     (readPresence sampleState (some 1000) 30000).estimatedWaitMinutes =
       max 0 (((countActiveCalls sampleState : Int) - 1) * 6)) :=
  ⟨by decide, presence_online_and_wait sampleState 1000 30000 (by decide)⟩

/-! Reduction lemmas for the three outcomes of the start-call route. -/

lemma startCall_existing_queued (cfg : TwilioConfig) (s : List CallRecord) (now : Nat)
    (u : UserIdent) (freshId : Nat) (hb : Handoff) {ex : CallRecord} {p : Nat}
    (hcfg : isTwilioConfigured cfg = true)
    (hfound : (listActiveCalls (rebalanceCallQueue s now)).find?
      (fun x => x.userId == u.uid) = some ex)
    (hqp : ex.queuePosition = some p) (hp1 : 1 < p) :
    startCall cfg s now u freshId hb =
      (rebalanceCallQueue s now, Except.ok (queuedStartCallResponse ex.id p)) := by
  simp only [startCall, hcfg, eq_self_iff_true, if_true, hfound, hqp]
  have hjs : jsOrNat (some p)
      (match (listActiveCalls (rebalanceCallQueue s now)).findIdx?
          (fun d => d.id == ex.id) with
       | some i => max 1 (i + 1)
       | none => max 1 0) = p := by
    simp [jsOrNat]
    omega
  rw [hjs, if_pos hp1]

lemma startCall_existing_live (cfg : TwilioConfig) (s : List CallRecord) (now : Nat)
    (u : UserIdent) (freshId : Nat) (hb : Handoff) {ex : CallRecord} {p : Nat}
    (hcfg : isTwilioConfigured cfg = true)
    (hfound : (listActiveCalls (rebalanceCallQueue s now)).find?
      (fun x => x.userId == u.uid) = some ex)
    (hqp : ex.queuePosition = some p) (hp0 : p ≠ 0) (hp1 : ¬ 1 < p) :
    startCall cfg s now u freshId hb =
      (rebalanceCallQueue s now, Except.ok (liveStartCallResponse cfg ex.id u)) := by
  simp only [startCall, hcfg, eq_self_iff_true, if_true, hfound, hqp]
  have hjs : jsOrNat (some p)
      (match (listActiveCalls (rebalanceCallQueue s now)).findIdx?
          (fun d => d.id == ex.id) with
       | some i => max 1 (i + 1)
       | none => max 1 0) = p := by
    simp [jsOrNat]
    omega
  rw [hjs, if_neg hp1]

lemma startCall_create_state (cfg : TwilioConfig) (s : List CallRecord) (now : Nat)
    (u : UserIdent) (freshId : Nat) (hb : Handoff)
    (hcfg : isTwilioConfigured cfg = true)
    (hfound : (listActiveCalls (rebalanceCallQueue s now)).find?
      (fun x => x.userId == u.uid) = none) :
    (startCall cfg s now u freshId hb).1 =
      rebalanceCallQueue
        (rebalanceCallQueue s now ++
          [newCallRecord u freshId ((listActiveCalls (rebalanceCallQueue s now)).length + 1)
            now hb]) now := by
  simp only [startCall, hcfg, eq_self_iff_true, if_true, hfound]
  split <;> rfl

/-- C2: at most one active call record per user.  Under the invariant
that active records have pairwise distinct `userId`s, a start-call
admission preserves that invariant; and an admission by a user who
already has an active record leaves the set of document ids unchanged
(no second record is created) and answers with the existing record's id
and its current rank-derived queue position. -/
theorem startCall_one_active_per_user (cfg : TwilioConfig) (s : List CallRecord)
    (now : Nat) (u : UserIdent) (freshId : Nat) (hb : Handoff)
    (hcfg : isTwilioConfigured cfg = true)
    (hids : (s.map fun x => x.id).Nodup)
    (hfresh : freshId ∉ s.map fun x => x.id)
    (huniq : ((s.filter fun x => isActiveCallStatus x.status).map fun x => x.userId).Nodup) :
    (((startCall cfg s now u freshId hb).1.filter fun x => isActiveCallStatus x.status).map
        fun x => x.userId).Nodup ∧
    ((∃ x ∈ s, isActiveCallStatus x.status = true ∧ x.userId = u.uid) →
      ((startCall cfg s now u freshId hb).1.map fun x => x.id) = (s.map fun x => x.id) ∧
      ∃ x ∈ listActiveCalls (startCall cfg s now u freshId hb).1, x.userId = u.uid ∧
        ∃ resp, (startCall cfg s now u freshId hb).2 = Except.ok resp ∧
          resp.requestId = some x.id ∧
          ∃ i, ∃ hi : i < (listActiveCalls (startCall cfg s now u freshId hb).1).length,
            (listActiveCalls (startCall cfg s now u freshId hb).1).get ⟨i, hi⟩ = x ∧
            resp.queuePosition = i + 1) := by
  have hdocs : listActiveCalls (rebalanceCallQueue s now) =
      rebalancedDocsFrom now 1 (listActiveCalls s) := listActiveCalls_rebalance s now hids
  have hact : ((rebalanceCallQueue s now).filter fun x => isActiveCallStatus x.status).map
      (fun x => x.userId) =
      (s.filter fun x => isActiveCallStatus x.status).map fun x => x.userId :=
    active_userIds_rebalance s now hids
  cases hfound : (listActiveCalls (rebalanceCallQueue s now)).find?
      (fun x => x.userId == u.uid) with
  | some ex =>
    have hex : ex ∈ listActiveCalls (rebalanceCallQueue s now) :=
      List.mem_of_find?_eq_some hfound
    have hexuid : ex.userId = u.uid := by simpa using List.find?_some hfound
    obtain ⟨⟨i, hi⟩, hget⟩ := List.mem_iff_get.mp hex
    have hexqp : ex.queuePosition = some (1 + i) := by
      rw [← hget, List.get_of_eq hdocs ⟨i, hi⟩]
      exact rebalancedDocs_get_queuePosition now 1 (listActiveCalls s) i _
    by_cases hcase : 1 < 1 + i
    · have hred := startCall_existing_queued cfg s now u freshId hb hcfg hfound hexqp hcase
      rw [hred]
      constructor
      · show (((rebalanceCallQueue s now).filter fun x => isActiveCallStatus x.status).map
            fun x => x.userId).Nodup
        rw [hact]
        exact huniq
      · intro _
        refine ⟨rebalanceCallQueue_ids s now, ex, hex, hexuid,
          queuedStartCallResponse ex.id (1 + i), rfl, rfl, i, hi, hget, ?_⟩
        show 1 + i = i + 1
        omega
    · have hred := startCall_existing_live cfg s now u freshId hb hcfg hfound hexqp
        (by omega) hcase
      have hi0 : i = 0 := by omega
      subst hi0
      rw [hred]
      constructor
      · show (((rebalanceCallQueue s now).filter fun x => isActiveCallStatus x.status).map
            fun x => x.userId).Nodup
        rw [hact]
        exact huniq
      · intro _
        exact ⟨rebalanceCallQueue_ids s now, ex, hex, hexuid,
          liveStartCallResponse cfg ex.id u, rfl, rfl, 0, hi, hget, rfl⟩
  | none =>
    have hexcl : u.uid ∉ (s.filter fun x => isActiveCallStatus x.status).map
        fun x => x.userId := by
      intro hmem
      rw [← hact] at hmem
      obtain ⟨y, hy, hyuid⟩ := List.mem_map.mp hmem
      have hy2 : y ∈ listActiveCalls (rebalanceCallQueue s now) :=
        ((sortByCreatedAt_perm _).mem_iff).mpr hy
      have hnone := List.find?_eq_none.mp hfound y hy2
      simp [hyuid] at hnone
    constructor
    · rw [startCall_create_state cfg s now u freshId hb hcfg hfound]
      have hnewact : isActiveCallStatus
          (newCallRecord u freshId
            ((listActiveCalls (rebalanceCallQueue s now)).length + 1) now hb).status = true := by
        show isActiveCallStatus
          (if (listActiveCalls (rebalanceCallQueue s now)).length + 1 ≤ 1 then "requested"
           else "queued") = true
        by_cases h : (listActiveCalls (rebalanceCallQueue s now)).length + 1 ≤ 1
        · rw [if_pos h]
          decide
        · rw [if_neg h]
          decide
      have hids2 : ((rebalanceCallQueue s now ++
          [newCallRecord u freshId
            ((listActiveCalls (rebalanceCallQueue s now)).length + 1) now hb]).map
          fun x => x.id).Nodup := by
        rw [List.map_append, rebalanceCallQueue_ids, List.nodup_append]
        refine ⟨hids, by simp, ?_⟩
        intro a ha hb2
        simp only [List.map_cons, List.map_nil, List.mem_singleton] at hb2
        subst hb2
        exact hfresh ha
      rw [active_userIds_rebalance _ now hids2, List.filter_append, List.map_append, hact]
      have hsingle : (([newCallRecord u freshId
          ((listActiveCalls (rebalanceCallQueue s now)).length + 1) now hb].filter
            fun x => isActiveCallStatus x.status).map fun x => x.userId) = [u.uid] := by
        simp [List.filter_cons, hnewact]
        rfl
      rw [hsingle, List.nodup_append]
      refine ⟨huniq, List.nodup_singleton _, ?_⟩
      intro a ha hb2
      simp only [List.mem_singleton] at hb2
      subst hb2
      exact hexcl ha
    · intro hhas
      exfalso
      obtain ⟨x, hxs, hxact, hxuid⟩ := hhas
      exact hexcl (hxuid ▸ List.mem_map_of_mem (fun x => x.userId)
        (List.mem_filter.mpr ⟨hxs, hxact⟩))

theorem startCall_one_active_per_user_witness :
    (isTwilioConfigured cfgConfigured = true) ∧
    (([sampleCallA].map fun x => x.id).Nodup) ∧
    (99 ∉ [sampleCallA].map fun x => x.id) ∧
    ((([sampleCallA].filter fun x => isActiveCallStatus x.status).map
        fun x => x.userId).Nodup) ∧
    ((((startCall cfgConfigured [sampleCallA] 5 sampleUser 99 emptyHandoff).1.filter
        fun x => isActiveCallStatus x.status).map fun x => x.userId).Nodup ∧
     ((∃ x ∈ [sampleCallA], isActiveCallStatus x.status = true ∧ x.userId = sampleUser.uid) →
       ((startCall cfgConfigured [sampleCallA] 5 sampleUser 99 emptyHandoff).1.map
           fun x => x.id) = ([sampleCallA].map fun x => x.id) ∧
       ∃ x ∈ listActiveCalls (startCall cfgConfigured [sampleCallA] 5 sampleUser 99
           emptyHandoff).1, x.userId = sampleUser.uid ∧
         ∃ resp, (startCall cfgConfigured [sampleCallA] 5 sampleUser 99 emptyHandoff).2 =
             Except.ok resp ∧
           resp.requestId = some x.id ∧
           ∃ i, ∃ hi : i < (listActiveCalls (startCall cfgConfigured [sampleCallA] 5
               sampleUser 99 emptyHandoff).1).length,
             (listActiveCalls (startCall cfgConfigured [sampleCallA] 5 sampleUser 99
                 emptyHandoff).1).get ⟨i, hi⟩ = x ∧
             resp.queuePosition = i + 1)) :=
  ⟨rfl, by decide, by decide, by decide,
   startCall_one_active_per_user cfgConfigured [sampleCallA] 5 sampleUser 99 emptyHandoff
     rfl (by decide) (by decide) (by decide)⟩

lemma data_mk (l : List Char) : (String.mk l).data = l := rfl

/-- C10: `sanitizeIdentity` is idempotent and bounded: with the empty
fallback, its output only contains characters of the class
`[A-Za-z0-9_.-]`, is at most 120 characters long, and sanitizing the
output again returns it unchanged. -/
theorem sanitizeIdentity_idempotent_and_bounded (s : String) :
    ((sanitizeIdentity s ("")).data.all isIdentityChar = true) ∧
    (sanitizeIdentity s ("")).data.length ≤ 120 ∧
    sanitizeIdentity (sanitizeIdentity s ("")) ("") = sanitizeIdentity s ("") := by
  by_cases h : String.mk (sanitizeIdentityChars s.data) = ""
  · have h1 : sanitizeIdentity s ("") = "" := by
      unfold sanitizeIdentity; rw [if_pos h]
    rw [h1]
    refine ⟨by decide, by decide, by decide⟩
  · have h1 : sanitizeIdentity s ("") = String.mk (sanitizeIdentityChars s.data) := by
      unfold sanitizeIdentity; rw [if_neg h]
    rw [h1]
    refine ⟨?_, ?_, ?_⟩
    · simp only [data_mk]
      exact List.all_eq_true.mpr fun c hc => mem_sanitizeIdentityChars hc
    · simp only [data_mk]
      exact sanitizeIdentityChars_length s.data
    · unfold sanitizeIdentity
      simp only [data_mk, sanitizeIdentityChars_idem]
      rw [if_neg h]

end SymptomNerd
